import Mathlib

/-!
# Verification of the WCAG MCP server's resolution and extraction core

This file gives a shallow embedding of the content-resolution and
HTML-outline-extraction core of the WCAG MCP server (`index.js`) and proves
the spec's testable properties about it.

Modelling conventions:
* The on-disk corpus (the Document Store) is modelled as a `Store`: a pair of
  total functions `fsExists : String → Bool` (for `fs.existsSync`) and
  `fsRead : String → String` (for `fs.readFileSync`); reads in the source are
  guarded by existence checks on the resolution paths.
* `criterionPath`/`understandingPath`/`techniquePath` model the
  pre-normalization template `base ++ "/" ++ rel` handed to `path.join`;
  this is adequate for the store-quantified resolution theorems (a store
  with normalization composed into `fsExists`/`fsRead` transfers them to
  the program). `pathJoin`/`pathNormalize` below model `path.join` with
  Node's posix normalization, for statements about the probed path string
  itself.
* JS exceptions are modelled with `Except`; the `McpError` values thrown by
  the server carry their `ErrorCode` and message exactly as in the source.
* The external HTML parser (jsdom) and HTML→Markdown converter (turndown) are
  black-box collaborators per the spec; parsed query results appear as
  explicit node structures and conversion as a function parameter.
-/

/-- Error codes used by the server (from `@modelcontextprotocol/sdk`). -/
inductive ErrorCode where
  | InvalidRequest
  | InternalError
deriving DecidableEq, Repr

/-- An `McpError` as thrown by the server: a code plus a message string. -/
structure McpError where
  code : ErrorCode
  message : String
deriving DecidableEq, Repr

/-- The Document Store: total models of `fs.existsSync` / `fs.readFileSync`. -/
structure Store where
  fsExists : String → Bool
  fsRead : String → String

/-- `const versions = ['20', '21', '22']` — the fixed probe order in
`findCriterion` and `findUnderstanding`. -/
def versions : List String := ["20", "21", "22"]

/-- The template `path.join(wcagBasePath,
'guidelines/sc/<version>/<criterionId>.html')` builds from, as plain
concatenation; the normalized path actually probed is
`criterionPathJoined` below, which coincides with this whenever the base
and identifier have plain segments. -/
def criterionPath (base v id : String) : String :=
  base ++ "/guidelines/sc/" ++ v ++ "/" ++ id ++ ".html"

/-- The template `path.join(wcagBasePath,
'understanding/<version>/<criterionId>.html')` builds from, as plain
concatenation; the normalized probed path is `understandingPathJoined`
below. -/
def understandingPath (base v id : String) : String :=
  base ++ "/understanding/" ++ v ++ "/" ++ id ++ ".html"

/-- The version-probing loop body shared by `findCriterion` and
`findUnderstanding`: walk the candidate paths in order and return the content
of the first one that exists. -/
def findFirst (st : Store) : List String → Option String
  | [] => none
  | p :: rest => if st.fsExists p then some (st.fsRead p) else findFirst st rest

/-- `findCriterion(criterionId)`: probe versions 20, 21, 22 in order under
`guidelines/sc/` and return the first existing file's content, else throw
`InvalidRequest` "Criterion not found". -/
def findCriterion (st : Store) (base id : String) : Except McpError String :=
  match findFirst st (versions.map (fun v => criterionPath base v id)) with
  | some content => .ok content
  | none => .error ⟨.InvalidRequest, "Criterion not found: " ++ id⟩

/-- `findUnderstanding(criterionId)`: probe versions 20, 21, 22 in order under
`understanding/` and return the first existing file's content, else throw
`InvalidRequest` "Understanding document not found". -/
def findUnderstanding (st : Store) (base id : String) : Except McpError String :=
  match findFirst st (versions.map (fun v => understandingPath base v id)) with
  | some content => .ok content
  | none => .error ⟨.InvalidRequest, "Understanding document not found: " ++ id⟩

lemma findFirst_append (st : Store) (p : String) (l2 : List String) :
    ∀ l1 : List String, (∀ q ∈ l1, st.fsExists q = false) → st.fsExists p = true →
      findFirst st (l1 ++ p :: l2) = some (st.fsRead p) := by
  intro l1
  induction l1 with
  | nil => intro _ hp; simp [findFirst, hp]
  | cons q l ih =>
      intro hall hp
      have hq : st.fsExists q = false := hall q (by simp)
      simp only [List.cons_append, findFirst, hq]
      simp only [Bool.false_eq_true, if_false]
      exact ih (fun r hr => hall r (by simp [hr])) hp

/-- C1: criterion and understanding resolution probe versions "20", "21",
"22" in that fixed order and return the content of the first version whose
file exists; a version probed later is never the one returned. Stated via an
arbitrary decomposition `versions = pre ++ v :: post` where no version in
`pre` has the file: resolution returns exactly version `v`'s content. -/
theorem find_first_version_wins :
    (∀ (st : Store) (base id : String) (pre post : List String) (v : String),
      versions = pre ++ v :: post →
      (∀ w ∈ pre, st.fsExists (criterionPath base w id) = false) →
      st.fsExists (criterionPath base v id) = true →
      findCriterion st base id = .ok (st.fsRead (criterionPath base v id))) ∧
    (∀ (st : Store) (base id : String) (pre post : List String) (v : String),
      versions = pre ++ v :: post →
      (∀ w ∈ pre, st.fsExists (understandingPath base w id) = false) →
      st.fsExists (understandingPath base v id) = true →
      findUnderstanding st base id = .ok (st.fsRead (understandingPath base v id))) := by
  constructor
  · intro st base id pre post v hsplit hpre hv
    have hmap : versions.map (fun w => criterionPath base w id) =
        pre.map (fun w => criterionPath base w id) ++
          criterionPath base v id :: post.map (fun w => criterionPath base w id) := by
      rw [hsplit]; simp
    have hall : ∀ q ∈ pre.map (fun w => criterionPath base w id),
        st.fsExists q = false := by
      intro q hq
      rcases List.mem_map.mp hq with ⟨w, hw, rfl⟩
      exact hpre w hw
    rw [findCriterion, hmap, findFirst_append st _ _ _ hall hv]
  · intro st base id pre post v hsplit hpre hv
    have hmap : versions.map (fun w => understandingPath base w id) =
        pre.map (fun w => understandingPath base w id) ++
          understandingPath base v id :: post.map (fun w => understandingPath base w id) := by
      rw [hsplit]; simp
    have hall : ∀ q ∈ pre.map (fun w => understandingPath base w id),
        st.fsExists q = false := by
      intro q hq
      rcases List.mem_map.mp hq with ⟨w, hw, rfl⟩
      exact hpre w hw
    rw [findUnderstanding, hmap, findFirst_append st _ _ _ hall hv]

/-- Concrete store for the C1 witness: the identifier `x` exists under
versions 21 and 22 for criteria, and under 21 for understanding. -/
def storeC1 : Store where
  fsExists := fun p =>
    p == "B/guidelines/sc/21/x.html" || p == "B/guidelines/sc/22/x.html" ||
      p == "B/understanding/21/x.html"
  fsRead := fun p => p

/-- Witness for C1: with `x` present under versions 21 and 22, resolution
returns version 21's content (the first existing version), never 22's. -/
theorem find_first_version_wins_witness :
    findCriterion storeC1 "B" "x" = .ok "B/guidelines/sc/21/x.html" ∧
    findUnderstanding storeC1 "B" "x" = .ok "B/understanding/21/x.html" := by
  constructor
  · exact find_first_version_wins.1 storeC1 "B" "x" ["20"] ["22"] "21" rfl
      (by decide) (by decide)
  · exact find_first_version_wins.2 storeC1 "B" "x" ["20"] ["22"] "21" rfl
      (by decide) (by decide)

/-! ## Technique resolution (`findTechnique`) -/

/-- Model of JS `String.prototype.startsWith` at the character-list level:
`listStarts p l` is true iff `p` is a leading segment of `l`. -/
def listStarts : List Char → List Char → Bool
  | [], _ => true
  | _ :: _, [] => false
  | a :: p, b :: l => if a = b then listStarts p l else false

/-- `s.startsWith(t)` on strings. -/
def strStarts (s t : String) : Bool := listStarts t.data s.data

/-- `/^[A-Z]/.test(techniqueId)`: the first character is an ASCII uppercase
letter. -/
def startsWithUpper (s : String) : Bool :=
  match s.data with
  | [] => false
  | c :: _ => 'A' ≤ c && c ≤ 'Z'

/-- `techniqueId.charAt(0)` (used only after the uppercase test succeeds;
JS returns `""` on an empty string). -/
def firstCharStr (s : String) : String :=
  match s.data with
  | [] => ""
  | c :: _ => String.mk [c]

/-- `TECHNIQUE_PREFIX_MAP` from the source, as an association list. -/
def TECHNIQUE_PFX_MAP : List (String × String) :=
  [("ARIA", "aria"), ("C", "css"), ("F", "failures"), ("FLASH", "flash"),
   ("G", "general"), ("H", "html"), ("PDF", "pdf"),
   ("SCR", "client-side-script"), ("SL", "silverlight"), ("SM", "smil"),
   ("SVR", "server-side-script"), ("T", "text")]

/-- JS object property lookup `TECHNIQUE_PREFIX_MAP[prefix]`. -/
def lookupPfx (p : String) : Option String :=
  (TECHNIQUE_PFX_MAP.find? (fun kv => kv.1 == p)).map Prod.snd

/-- The multi-letter branches of the source's `if`/`else if` cascade, in
source order. -/
def multiPfxList : List String := ["ARIA", "FLASH", "PDF", "SCR", "SL", "SM", "SVR"]

/-- The source's cascade that derives a technique-id prefix: each known
multi-letter candidate is tried in order via `startsWith`, then the first
character if it is uppercase; otherwise no prefix (`InvalidRequest` throw
modelled as `none`). -/
def extractPfx (techniqueId : String) : Option String :=
  if strStarts techniqueId "ARIA" then some "ARIA"
  else if strStarts techniqueId "FLASH" then some "FLASH"
  else if strStarts techniqueId "PDF" then some "PDF"
  else if strStarts techniqueId "SCR" then some "SCR"
  else if strStarts techniqueId "SL" then some "SL"
  else if strStarts techniqueId "SM" then some "SM"
  else if strStarts techniqueId "SVR" then some "SVR"
  else if startsWithUpper techniqueId then some (firstCharStr techniqueId)
  else none

/-- `path.join(wcagBasePath, 'techniques/<technology>/<techniqueId>.html')`. -/
def techniquePath (base tech id : String) : String :=
  base ++ "/techniques/" ++ tech ++ "/" ++ id ++ ".html"

/-- `findTechnique(techniqueId)` from the source: derive the prefix, map it
through the table, then read the file if it exists. -/
def findTechnique (st : Store) (base id : String) : Except McpError String :=
  match extractPfx id with
  | none => .error ⟨.InvalidRequest, "Invalid technique ID format: " ++ id⟩
  | some pfx =>
    match lookupPfx pfx with
    | none => .error ⟨.InvalidRequest, "Unknown technique prefix: " ++ pfx⟩
    | some tech =>
      if st.fsExists (techniquePath base tech id) then
        .ok (st.fsRead (techniquePath base tech id))
      else
        .error ⟨.InvalidRequest, "Technique not found: " ++ id⟩

lemma listStarts_iff (p : List Char) :
    ∀ l, listStarts p l = true ↔ ∃ t, l = p ++ t := by
  induction p with
  | nil => intro l; simp [listStarts]
  | cons a p ih =>
      intro l
      cases l with
      | nil =>
          simp [listStarts]
      | cons b l =>
          constructor
          · intro h
            by_cases hab : a = b
            · subst hab
              rcases (ih l).mp (by simpa [listStarts] using h) with ⟨t, rfl⟩
              exact ⟨t, rfl⟩
            · simp [listStarts, hab] at h
          · rintro ⟨t, ht⟩
            rw [List.cons_append] at ht
            injection ht with h1 h2
            subst h1
            simpa [listStarts] using (ih l).mpr ⟨t, h2⟩

lemma extractPfx_of_starts (id p : String) (hp : p ∈ multiPfxList)
    (h : strStarts id p = true) : extractPfx id = some p := by
  obtain ⟨tl, htl⟩ := (listStarts_iff p.data id.data).mp (by simpa [strStarts] using h)
  fin_cases hp <;> simp_all [extractPfx, strStarts, listStarts]

/-- C2: a technique identifier that starts with one of the multi-letter
candidates ARIA, FLASH, PDF, SCR, SL, SM, SVR resolves through that
multi-letter candidate and its mapped technology directory — never through
the single-letter fallback: the derived prefix is exactly the multi-letter
one, and `findTechnique` reads under the mapped technology. -/
theorem findTechnique_multi_letter_priority :
    ∀ (id p t : String),
      (p, t) ∈ [("ARIA", "aria"), ("FLASH", "flash"), ("PDF", "pdf"),
        ("SCR", "client-side-script"), ("SL", "silverlight"), ("SM", "smil"),
        ("SVR", "server-side-script")] →
      strStarts id p = true →
      extractPfx id = some p ∧ lookupPfx p = some t ∧
      ∀ (st : Store) (base : String),
        findTechnique st base id =
          if st.fsExists (techniquePath base t id) then
            .ok (st.fsRead (techniquePath base t id))
          else .error ⟨.InvalidRequest, "Technique not found: " ++ id⟩ := by
  intro id p t hmem h
  have hp : p ∈ multiPfxList := by
    fin_cases hmem <;> simp [multiPfxList]
  have hex : extractPfx id = some p := extractPfx_of_starts id p hp h
  have hlk : lookupPfx p = some t := by
    fin_cases hmem <;> rfl
  refine ⟨hex, hlk, ?_⟩
  intro st base
  simp [findTechnique, hex, hlk]

/-- Witness for C2: "SCR21" derives prefix "SCR" (not "S") and resolves
through technology "client-side-script"; "ARIA4" derives "ARIA" and resolves
through "aria". -/
theorem findTechnique_multi_letter_priority_witness :
    extractPfx "SCR21" = some "SCR" ∧
      lookupPfx "SCR" = some "client-side-script" ∧
    extractPfx "ARIA4" = some "ARIA" ∧ lookupPfx "ARIA" = some "aria" := by
  have h1 := findTechnique_multi_letter_priority "SCR21" "SCR" "client-side-script"
    (by decide) (by decide)
  have h2 := findTechnique_multi_letter_priority "ARIA4" "ARIA" "aria"
    (by decide) (by decide)
  exact ⟨h1.1, h1.2.1, h2.1, h2.2.1⟩

/-- The store with no files at all (every existence check fails). -/
def emptyStore : Store where
  fsExists := fun _ => false
  fsRead := fun _ => ""

/-- Counterexample to C5 as stated: "SCR21" has an uppercase first letter
'S', and "S" is not a key of the technology table, yet resolution does not
fail with the UnknownPrefix error — with no matching file it fails with the
NotFound error, because the identifier resolves via the multi-letter prefix
"SCR", which is in the table. -/
theorem findTechnique_upper_nonkey_cex :
    startsWithUpper "SCR21" = true ∧ lookupPfx "S" = none ∧
    findTechnique emptyStore "W" "SCR21" =
      .error ⟨.InvalidRequest, "Technique not found: SCR21"⟩ ∧
    (McpError.mk .InvalidRequest "Technique not found: SCR21" ≠
      ⟨.InvalidRequest, "Unknown technique prefix: S"⟩) := by
  refine ⟨rfl, rfl, ?_, by decide⟩
  rfl

/-- C5 (amended): for every technique identifier that matches none of the
multi-letter candidates, whose first character is an uppercase letter, and
whose single-letter fallback prefix is not a key of the technology table,
resolution fails with the UnknownPrefix error — never with NotFound — for
every store and base path. -/
theorem findTechnique_fallback_unknown_pfx :
    ∀ (st : Store) (base id : String),
      (∀ p ∈ multiPfxList, strStarts id p = false) →
      startsWithUpper id = true →
      lookupPfx (firstCharStr id) = none →
      findTechnique st base id =
        .error ⟨.InvalidRequest, "Unknown technique prefix: " ++ firstCharStr id⟩ := by
  intro st base id hm hu hk
  have h1 := hm "ARIA" (by simp [multiPfxList])
  have h2 := hm "FLASH" (by simp [multiPfxList])
  have h3 := hm "PDF" (by simp [multiPfxList])
  have h4 := hm "SCR" (by simp [multiPfxList])
  have h5 := hm "SL" (by simp [multiPfxList])
  have h6 := hm "SM" (by simp [multiPfxList])
  have h7 := hm "SVR" (by simp [multiPfxList])
  have hex : extractPfx id = some (firstCharStr id) := by
    simp [extractPfx, h1, h2, h3, h4, h5, h6, h7, hu]
  simp [findTechnique, hex, hk]

/-- Witness for C5 (amended): "S99" matches none of SCR/SL/SM/SVR (nor the
other multi-letter candidates), falls back to prefix "S", which is absent
from the table, and fails with the UnknownPrefix error. -/
theorem findTechnique_fallback_unknown_pfx_witness :
    findTechnique emptyStore "W" "S99" =
      .error ⟨.InvalidRequest, "Unknown technique prefix: S"⟩ := by
  have h := findTechnique_fallback_unknown_pfx emptyStore "W" "S99"
    (by decide) (by decide) (by decide)
  simpa using h

/-- C7: a technique identifier matching no multi-letter candidate and whose
first character is not an uppercase letter (e.g. it is empty, or starts with
a lowercase letter or a digit) fails with the InvalidIdentifier error; this
holds for every store, so neither the technology table's contents nor any
file's existence affects the outcome. -/
theorem findTechnique_invalid_identifier :
    ∀ (st : Store) (base id : String),
      (∀ p ∈ multiPfxList, strStarts id p = false) →
      startsWithUpper id = false →
      findTechnique st base id =
        .error ⟨.InvalidRequest, "Invalid technique ID format: " ++ id⟩ := by
  intro st base id hm hu
  have h1 := hm "ARIA" (by simp [multiPfxList])
  have h2 := hm "FLASH" (by simp [multiPfxList])
  have h3 := hm "PDF" (by simp [multiPfxList])
  have h4 := hm "SCR" (by simp [multiPfxList])
  have h5 := hm "SL" (by simp [multiPfxList])
  have h6 := hm "SM" (by simp [multiPfxList])
  have h7 := hm "SVR" (by simp [multiPfxList])
  have hex : extractPfx id = none := by
    simp [extractPfx, h1, h2, h3, h4, h5, h6, h7, hu]
  simp [findTechnique, hex]

/-- Witness for C7: "aria1" (lowercase first letter) fails with the
InvalidIdentifier error. -/
theorem findTechnique_invalid_identifier_witness :
    findTechnique emptyStore "W" "aria1" =
      .error ⟨.InvalidRequest, "Invalid technique ID format: aria1"⟩ := by
  have h := findTechnique_invalid_identifier emptyStore "W" "aria1"
    (by decide) (by decide)
  simpa using h

/-! ## Structural Extractor (`extractGuidelinesContent`) -/

/-- JS `String.prototype.split` with a one-character separator, on character
lists: always returns a non-empty list of (possibly empty) segments. -/
def splitChar (sep : Char) : List Char → List (List Char)
  | [] => [[]]
  | c :: cs =>
      let r := splitChar sep cs
      if c = sep then [] :: r
      else (c :: r.headD []) :: r.tail

/-- `includePath.split('/').pop().split('.')[0]` — the identifier derived
from a criterion's `data-include` path: last `/`-segment, then the part
before the first `.`. (`pop` on the non-empty split result is modelled with
`getLastD`, `[0]` with `headD`; the defaults are never reached.) -/
def deriveId (p : String) : String :=
  String.mk ((splitChar '.' ((splitChar '/' p.data).getLastD [])).headD [])

/-- A parsed criterion content's `section.sc` node, as delivered by the
black-box HTML parser: its `h4` heading text (trimmed), when present. -/
structure SCSection where
  h4 : Option String

/-- One record of `wcag-criteria.json` (the CriteriaIndex), as consumed by
the extractor: `id` and raw `content`. -/
structure CriterionRecord where
  id : String
  content : String

/-- The loaded `wcag-criteria.json` object; `criteria` is `none` when the
file failed to load (`criteriaData = {}`). -/
structure CriteriaData where
  criteria : Option (List CriterionRecord)

/-- A `section[data-include]` node inside a guideline. -/
structure CriterionRef where
  dataInclude : String

/-- A `section.guideline` node: `h3` heading text, following paragraph, and
its `section[data-include]` children in document order. -/
structure GuidelineNode where
  h3 : Option String
  h3p : Option String
  criteria : List CriterionRef

/-- A `section.principle` node: `h2` heading text, following paragraph, and
its `section.guideline` children in document order. -/
structure PrincipleNode where
  h2 : Option String
  h2p : Option String
  guidelines : List GuidelineNode

/-- The parsed outline source (`guidelines/index.html`): its
`section.principle` nodes in document order. -/
structure OutlineDoc where
  principles : List PrincipleNode

/-- The JS exception that aborts extraction: `sc.querySelector('h4')` when
`scDom.window.document.querySelector('section.sc')` returned `null`. -/
inductive JSError where
  | nullQuerySelector
deriving DecidableEq, Repr

/-- The string interpolation `${error}` of the thrown TypeError. -/
def jsErrorMessage : JSError → String
  | .nullQuerySelector =>
      "TypeError: Cannot read properties of null (reading 'querySelector')"

/-- The markdown line emitted per criterion:
`- [<p>.<g>.<c> <title>](wcag://criteria/<id>)\n`. -/
def criterionLine (pn gn cn : Nat) (title cid : String) : String :=
  "- [" ++ toString pn ++ "." ++ toString gn ++ "." ++ toString cn ++ " " ++
    title ++ "](wcag://criteria/" ++ cid ++ ")\n"

/-- One iteration of the criteria `forEach`: derive the identifier, look it
up in the CriteriaIndex, parse the record's content (empty string when the
record is missing) with the black-box parser `psc`, select `section.sc`, and
read its `h4` title. When `section.sc` is absent — in particular for the
empty document parsed from a missing record — the source dereferences `null`
and throws. -/
def renderCriterion (psc : String → Option SCSection) (cd : CriteriaData)
    (pn gn cn : Nat) (c : CriterionRef) : Except JSError String :=
  let criterionId := deriveId c.dataInclude
  let scData := cd.criteria.bind (fun cs => cs.find? (fun r => r.id == criterionId))
  match psc ((scData.map CriterionRecord.content).getD "") with
  | none => .error .nullQuerySelector
  | some sc => .ok (criterionLine pn gn cn (sc.h4.getD "") criterionId)

/-- The criteria `forEach` with its closure counter `criterionNumber`
(entered with value `n`, incremented at the top of each iteration); a thrown
exception aborts the iteration. -/
def renderCriteria (psc : String → Option SCSection) (cd : CriteriaData)
    (pn gn : Nat) : Nat → List CriterionRef → Except JSError String
  | _, [] => .ok ""
  | n, c :: rest => do
      let line ← renderCriterion psc cd pn gn (n + 1) c
      let tail ← renderCriteria psc cd pn gn (n + 1) rest
      pure (line ++ tail)

/-- One iteration of the guidelines `forEach`: heading, description, the
criteria lines, and the trailing blank line. -/
def renderGuideline (psc : String → Option SCSection) (cd : CriteriaData)
    (pn gn : Nat) (g : GuidelineNode) : Except JSError String := do
  let lines ← renderCriteria psc cd pn gn 0 g.criteria
  pure ("### " ++ g.h3.getD "" ++ "\n\n" ++ g.h3p.getD "" ++ "\n\n" ++
    lines ++ "\n")

/-- The guidelines `forEach` with its closure counter `guidelineNumber`. -/
def renderGuidelines (psc : String → Option SCSection) (cd : CriteriaData)
    (pn : Nat) : Nat → List GuidelineNode → Except JSError String
  | _, [] => .ok ""
  | n, g :: rest => do
      let block ← renderGuideline psc cd pn (n + 1) g
      let tail ← renderGuidelines psc cd pn (n + 1) rest
      pure (block ++ tail)

/-- One iteration of the principles `forEach`. -/
def renderPrinciple (psc : String → Option SCSection) (cd : CriteriaData)
    (pn : Nat) (p : PrincipleNode) : Except JSError String := do
  let gs ← renderGuidelines psc cd pn 0 p.guidelines
  pure ("## " ++ p.h2.getD "" ++ "\n\n" ++ p.h2p.getD "" ++ "\n\n" ++ gs)

/-- The principles `forEach` with its closure counter `principleNumber`. -/
def renderPrinciples (psc : String → Option SCSection) (cd : CriteriaData) :
    Nat → List PrincipleNode → Except JSError String
  | _, [] => .ok ""
  | n, p :: rest => do
      let block ← renderPrinciple psc cd (n + 1) p
      let tail ← renderPrinciples psc cd (n + 1) rest
      pure (block ++ tail)

/-- `extractGuidelinesContent`: build the outline markdown; any exception
thrown while processing is caught and replaced by the diagnostic document. -/
def extractGuidelinesContent (psc : String → Option SCSection)
    (cd : CriteriaData) (doc : OutlineDoc) : String :=
  match renderPrinciples psc cd 0 doc.principles with
  | .ok md => md
  | .error e =>
      "# Error Processing WCAG Guidelines\n\nAn error occurred while " ++
        "processing the WCAG guidelines: " ++ jsErrorMessage e ++ "\n"

lemma splitChar_ne_nil (sep : Char) (l : List Char) : splitChar sep l ≠ [] := by
  cases l with
  | nil => simp [splitChar]
  | cons c cs => by_cases h : c = sep <;> simp [splitChar, h]

lemma getLastD_indep {α : Type} (l : List α) (hl : l ≠ []) (a b : α) :
    l.getLastD a = l.getLastD b := by
  cases l with
  | nil => exact absurd rfl hl
  | cons x t => rfl

lemma splitChar_two_le (sep : Char) (l : List Char) (h : sep ∈ l) :
    2 ≤ (splitChar sep l).length := by
  induction l with
  | nil => simp at h
  | cons c cs ih =>
      by_cases hc : c = sep
      · have h1 : splitChar sep cs ≠ [] := splitChar_ne_nil sep cs
        have : 1 ≤ (splitChar sep cs).length := by
          cases hsc : splitChar sep cs with
          | nil => exact absurd hsc h1
          | cons x xs => simp
        simp [splitChar, hc]
        omega
      · have hmem : sep ∈ cs := by
          rcases List.mem_cons.mp h with h' | h'
          · exact absurd h'.symm hc
          · exact h'
        cases hsc : splitChar sep cs with
        | nil => exact absurd hsc (splitChar_ne_nil sep cs)
        | cons x xs =>
            have hlen := ih hmem
            rw [hsc] at hlen
            simp only [List.length_cons] at hlen
            simp [splitChar, hc, hsc]
            omega

lemma splitChar_getLastD_append (sep : Char) (ys : List Char) :
    ∀ (xs : List Char) (d : List Char),
      (splitChar sep (xs ++ sep :: ys)).getLastD d =
        (splitChar sep ys).getLastD d := by
  intro xs
  induction xs with
  | nil =>
      intro d
      have h2 : splitChar sep ([] ++ sep :: ys) = [] :: splitChar sep ys := by
        simp [splitChar]
      rw [h2, List.getLastD_cons, getLastD_indep _ (splitChar_ne_nil sep ys) [] d]
  | cons c cs ih =>
      intro d
      by_cases hc : c = sep
      · subst hc
        have h2 : splitChar c ((c :: cs) ++ c :: ys) =
            [] :: splitChar c (cs ++ c :: ys) := by
          simp [splitChar]
        rw [h2, List.getLastD_cons,
          getLastD_indep _ (splitChar_ne_nil c (cs ++ c :: ys)) [] d, ih d]
      · cases hsc : splitChar sep (cs ++ sep :: ys) with
        | nil => exact absurd hsc (splitChar_ne_nil sep _)
        | cons x t =>
            have hlen : 2 ≤ (splitChar sep (cs ++ sep :: ys)).length :=
              splitChar_two_le sep _ (by simp)
            rw [hsc] at hlen
            have ht : t ≠ [] := by
              intro h0
              rw [h0] at hlen
              simp at hlen
            have hih := ih d
            rw [hsc, List.getLastD_cons] at hih
            have h3 : splitChar sep ((c :: cs) ++ sep :: ys) = (c :: x) :: t := by
              rw [List.cons_append]
              simp [splitChar, hc, hsc]
            rw [h3, List.getLastD_cons, getLastD_indep t ht (c :: x) x]
            exact hih

lemma splitChar_of_not_mem (sep : Char) (l : List Char) (h : sep ∉ l) :
    splitChar sep l = [l] := by
  induction l with
  | nil => rfl
  | cons c cs ih =>
      have hc : ¬ c = sep := fun h0 => h (by simp [h0])
      have hcs : sep ∉ cs := fun h0 => h (by simp [h0])
      simp [splitChar, hc, ih hcs]

lemma splitChar_headD_takeWhile (sep : Char) (l : List Char) :
    (splitChar sep l).headD [] = l.takeWhile (fun c => c != sep) := by
  induction l with
  | nil => rfl
  | cons c cs ih =>
      by_cases hc : c = sep
      · subst hc
        simp [splitChar, List.takeWhile_cons]
      · have hb : (c != sep) = true := by simpa using hc
        cases hsc : splitChar sep cs with
        | nil => exact absurd hsc (splitChar_ne_nil sep cs)
        | cons x t =>
            rw [hsc, List.headD_cons] at ih
            have h3 : splitChar sep (c :: cs) = (c :: x) :: t := by
              simp [splitChar, hc, hsc]
            have h4 : List.takeWhile (fun a => a != sep) (c :: cs) =
                c :: List.takeWhile (fun a => a != sep) cs := by
              simp [List.takeWhile_cons, hb]
            rw [h3, h4, List.headD_cons, ← ih]

/-- The claim's reading of the identifier derivation: final `/`-segment with
its file extension (the part from the last `.` on) stripped. -/
def lastSegmentStem (p : String) : String :=
  let seg := (splitChar '/' p.data).getLastD []
  if '.' ∈ seg then
    String.mk (((seg.reverse.dropWhile (fun c => c != '.')).drop 1).reverse)
  else String.mk seg

/-- Counterexample to C9 as stated: for a reference ending in
`sc/20/a.b.html`, the final path segment with the file extension stripped is
"a.b", but the extractor truncates at the first `.` and derives "a". -/
theorem deriveId_not_extension_strip_cex :
    deriveId "sc/20/a.b.html" = "a" ∧ lastSegmentStem "sc/20/a.b.html" = "a.b" ∧
      ("a" : String) ≠ "a.b" := by
  refine ⟨by decide, by decide, by decide⟩

/-- C9 (amended): for every criterion reference realized as a transclusion
marker, the extractor derives the identifier as the final `/`-segment of the
referenced path truncated at its first `.` — which equals the segment with
its file extension stripped whenever the segment's stem contains no further
dot, e.g. `sc/20/non-text-content.html` yields `non-text-content`. -/
theorem deriveId_first_dot_truncation :
    ∀ (d s : String), '/' ∉ s.data →
      deriveId (d ++ "/" ++ s) = String.mk (s.data.takeWhile (fun c => c != '.')) := by
  intro d s hs
  have hdata : (d ++ "/" ++ s).data = d.data ++ '/' :: s.data := by
    rw [String.data_append, String.data_append]
    simp
  rw [deriveId, hdata, splitChar_getLastD_append '/' s.data d.data [],
    splitChar_of_not_mem '/' s.data hs]
  rw [show ([s.data] : List (List Char)).getLastD [] = s.data from rfl]
  rw [splitChar_headD_takeWhile]

/-- Witness for C9 (amended): the claim's own example — a reference ending in
`sc/20/non-text-content.html` yields identifier `non-text-content`. -/
theorem deriveId_first_dot_truncation_witness :
    deriveId ("sc/20" ++ "/" ++ "non-text-content.html") = "non-text-content" := by
  have h := deriveId_first_dot_truncation "sc/20" "non-text-content.html" (by decide)
  rw [h]
  decide

/-- CriteriaIndex for the C3 scenario: it has an entry for
`non-text-content` only. -/
def cdC3 : CriteriaData := ⟨some [⟨"non-text-content", "SC1"⟩]⟩

/-- Black-box parse results for the C3 scenario: the known record content
parses to a `section.sc`; every other string — in particular the empty
string produced for a missing record — has no `section.sc`. -/
def pscC3 : String → Option SCSection := fun s =>
  if s = "SC1" then some ⟨some "Non-text Content"⟩ else none

/-- Outline source for the C3 scenario: one principle, one guideline, one
criterion reference whose identifier `missing-criterion` has no
CriteriaIndex entry. -/
def docC3 : OutlineDoc :=
  ⟨[⟨some "Perceivable", some "P-desc",
    [⟨some "Text Alternatives", some "G-desc",
      [⟨"sc/20/missing-criterion.html"⟩]⟩]⟩]⟩

/-- `containsSeg p l` is true iff `p` occurs as a contiguous segment of
`l` (a substring check, used to state what an output does not contain). -/
def containsSeg (p : List Char) : List Char → Bool
  | [] => listStarts p []
  | c :: cs => listStarts p (c :: cs) || containsSeg p cs

set_option maxRecDepth 10000 in
/-- C3 is a code bug: with a criterion reference whose identifier is absent
from the CriteriaIndex, the extractor dereferences the `null` result of
`querySelector('section.sc')` on the empty document, the thrown TypeError
aborts the whole traversal, and the output is the diagnostic document — it
contains no numbered link line (no "1.1.1", no "missing-criterion") and no
empty-title degradation takes place. -/
theorem extractGuidelines_missing_index_entry_aborts :
    extractGuidelinesContent pscC3 cdC3 docC3 =
      "# Error Processing WCAG Guidelines\n\nAn error occurred while " ++
        "processing the WCAG guidelines: TypeError: Cannot read properties " ++
        "of null (reading 'querySelector')\n" ∧
    containsSeg "1.1.1".data (extractGuidelinesContent pscC3 cdC3 docC3).data
      = false ∧
    containsSeg "missing-criterion".data
      (extractGuidelinesContent pscC3 cdC3 docC3).data = false := by
  refine ⟨by decide, by decide, by decide⟩

/-- C8: the outline extraction never propagates a thrown failure: for every
input, either the traversal succeeds and its markdown is returned, or it
throws and the returned document is the short diagnostic markdown describing
the error. -/
theorem extractGuidelines_parse_failure_degrades :
    ∀ (psc : String → Option SCSection) (cd : CriteriaData) (doc : OutlineDoc),
      (∃ md, renderPrinciples psc cd 0 doc.principles = .ok md ∧
        extractGuidelinesContent psc cd doc = md) ∨
      (∃ e, renderPrinciples psc cd 0 doc.principles = .error e ∧
        extractGuidelinesContent psc cd doc =
          "# Error Processing WCAG Guidelines\n\nAn error occurred while " ++
            "processing the WCAG guidelines: " ++ jsErrorMessage e ++ "\n") := by
  intro psc cd doc
  cases h : renderPrinciples psc cd 0 doc.principles with
  | ok md => exact Or.inl ⟨md, rfl, by simp [extractGuidelinesContent, h]⟩
  | error e => exact Or.inr ⟨e, rfl, by simp [extractGuidelinesContent, h]⟩

/-! ## Document Transformer (`convertHtmlToMarkdown`) -/

/-- The turndown style policy object passed once in the constructor. -/
structure TurndownOptions where
  headingStyle : String
  codeBlockStyle : String
  bulletListMarker : String
  emDelimiter : String
  strongDelimiter : String
deriving DecidableEq, Repr

/-- The fixed style policy from the `WcagServer` constructor. -/
def wcagTurndownOptions : TurndownOptions :=
  ⟨"atx", "fenced", "-", "*", "**"⟩

/-- Modelled from the spec: the turndown library itself is not part of this
repository and is consumed as a black box whose output is a function of the
style policy and the input markup alone (spec §4.3: "This is a pure
function: same input markup and style policy always yields the same output
text; no state is retained between calls"). It is therefore modelled as an
arbitrary function parameter `td` of the options and the HTML text.
`convertHtmlToMarkdown(html)` calls it with the constructor's fixed
options. -/
def convertHtmlToMarkdown (td : TurndownOptions → String → String)
    (html : String) : String :=
  td wcagTurndownOptions html

/-- C6: converting the same document twice with identical input and the
fixed style policy (atx headings, fenced code blocks, '-' bullets, '*'
emphasis, '**' strong) yields identical output: the conversion depends only
on the converter, the fixed options and the input markup, and the options
are exactly the constructor's constants. -/
theorem convertHtmlToMarkdown_deterministic :
    ∀ (td : TurndownOptions → String → String) (h1 h2 : String),
      h1 = h2 →
      convertHtmlToMarkdown td h1 = convertHtmlToMarkdown td h2 ∧
      convertHtmlToMarkdown td h1 = td wcagTurndownOptions h1 ∧
      wcagTurndownOptions = ⟨"atx", "fenced", "-", "*", "**"⟩ := by
  intro td h1 h2 h
  exact ⟨by rw [h], rfl, rfl⟩

/-- Witness for C6 at a concrete converter and document. -/
theorem convertHtmlToMarkdown_deterministic_witness :
    convertHtmlToMarkdown (fun _ s => s) "<p>x</p>" =
      convertHtmlToMarkdown (fun _ s => s) "<p>x</p>" ∧
    convertHtmlToMarkdown (fun _ s => s) "<p>x</p>" =
      (fun (_ : TurndownOptions) (s : String) => s) wcagTurndownOptions "<p>x</p>" ∧
    wcagTurndownOptions = ⟨"atx", "fenced", "-", "*", "**"⟩ :=
  convertHtmlToMarkdown_deterministic (fun _ s => s) "<p>x</p>" "<p>x</p>" rfl

/-! ## Outline numbering (spec-side enumeration and refinement) -/

/-- 1-based (or generally `n`-based) positional enumeration of a list. -/
def enumFrom {α : Type} (n : Nat) : List α → List (Nat × α)
  | [] => []
  | a :: l => (n, a) :: enumFrom (n + 1) l

/-- Concatenate a list of fallible strings, failing on the first error. -/
def exceptJoin : List (Except JSError String) → Except JSError String
  | [] => .ok ""
  | x :: xs => do
      let a ← x
      let b ← exceptJoin xs
      pure (a ++ b)

/-- Spec-side guideline rendering: the criterion lines carry the 1-based
positions of the criteria within the guideline (spec §4.2 steps 4 and 7). -/
def renderGuidelineSpec (psc : String → Option SCSection) (cd : CriteriaData)
    (pn gn : Nat) (g : GuidelineNode) : Except JSError String := do
  let lines ← exceptJoin ((enumFrom 1 g.criteria).map
    (fun kc => renderCriterion psc cd pn gn kc.1 kc.2))
  pure ("### " ++ g.h3.getD "" ++ "\n\n" ++ g.h3p.getD "" ++ "\n\n" ++
    lines ++ "\n")

/-- Spec-side principle rendering: guidelines are numbered by their 1-based
position within the principle. -/
def renderPrincipleSpec (psc : String → Option SCSection) (cd : CriteriaData)
    (pn : Nat) (p : PrincipleNode) : Except JSError String := do
  let gs ← exceptJoin ((enumFrom 1 p.guidelines).map
    (fun jg => renderGuidelineSpec psc cd pn jg.1 jg.2))
  pure ("## " ++ p.h2.getD "" ++ "\n\n" ++ p.h2p.getD "" ++ "\n\n" ++ gs)

/-- Spec-side extraction: principles, guidelines and criteria are numbered
by their 1-based positions at each level — numbering is therefore strictly
sequential, gap-free, and restarts at 1 at each level boundary. -/
def extractSpec (psc : String → Option SCSection) (cd : CriteriaData)
    (doc : OutlineDoc) : String :=
  match exceptJoin ((enumFrom 1 doc.principles).map
      (fun ip => renderPrincipleSpec psc cd ip.1 ip.2)) with
  | .ok md => md
  | .error e =>
      "# Error Processing WCAG Guidelines\n\nAn error occurred while " ++
        "processing the WCAG guidelines: " ++ jsErrorMessage e ++ "\n"

lemma renderCriteria_eq_enum (psc : String → Option SCSection)
    (cd : CriteriaData) (pn gn : Nat) :
    ∀ (cs : List CriterionRef) (n : Nat),
      renderCriteria psc cd pn gn n cs =
        exceptJoin ((enumFrom (n + 1) cs).map
          (fun kc => renderCriterion psc cd pn gn kc.1 kc.2)) := by
  intro cs
  induction cs with
  | nil => intro n; rfl
  | cons c rest ih =>
      intro n
      simp [renderCriteria, enumFrom, exceptJoin, ih (n + 1)]

lemma renderGuideline_eq_spec (psc : String → Option SCSection)
    (cd : CriteriaData) (pn gn : Nat) (g : GuidelineNode) :
    renderGuideline psc cd pn gn g = renderGuidelineSpec psc cd pn gn g := by
  simp [renderGuideline, renderGuidelineSpec, renderCriteria_eq_enum]

lemma renderGuidelines_eq_enum (psc : String → Option SCSection)
    (cd : CriteriaData) (pn : Nat) :
    ∀ (gs : List GuidelineNode) (n : Nat),
      renderGuidelines psc cd pn n gs =
        exceptJoin ((enumFrom (n + 1) gs).map
          (fun jg => renderGuidelineSpec psc cd pn jg.1 jg.2)) := by
  intro gs
  induction gs with
  | nil => intro n; rfl
  | cons g rest ih =>
      intro n
      simp [renderGuidelines, enumFrom, exceptJoin, ih (n + 1),
        renderGuideline_eq_spec]

lemma renderPrinciple_eq_spec (psc : String → Option SCSection)
    (cd : CriteriaData) (pn : Nat) (p : PrincipleNode) :
    renderPrinciple psc cd pn p = renderPrincipleSpec psc cd pn p := by
  simp [renderPrinciple, renderPrincipleSpec, renderGuidelines_eq_enum]

lemma renderPrinciples_eq_enum (psc : String → Option SCSection)
    (cd : CriteriaData) :
    ∀ (ps : List PrincipleNode) (n : Nat),
      renderPrinciples psc cd n ps =
        exceptJoin ((enumFrom (n + 1) ps).map
          (fun ip => renderPrincipleSpec psc cd ip.1 ip.2)) := by
  intro ps
  induction ps with
  | nil => intro n; rfl
  | cons p rest ih =>
      intro n
      simp [renderPrinciples, enumFrom, exceptJoin, ih (n + 1),
        renderPrinciple_eq_spec]

/-- CriteriaIndex for the C4 scenario. -/
def cdC4 : CriteriaData :=
  ⟨some [⟨"non-text-content", "A"⟩, ⟨"audio-only", "B"⟩]⟩

/-- Black-box parse results for the C4 scenario. -/
def pscC4 : String → Option SCSection := fun s =>
  if s = "A" then some ⟨some "T1"⟩
  else if s = "B" then some ⟨some "T2"⟩
  else none

/-- Outline source for the C4 scenario: two principles, the first with one
guideline holding two criteria, the second with no guidelines. -/
def docC4 : OutlineDoc :=
  ⟨[⟨some "Perceivable", some "P1",
      [⟨some "Text Alternatives", some "G1",
        [⟨"sc/20/non-text-content.html"⟩, ⟨"sc/20/audio-only.html"⟩]⟩]⟩,
    ⟨some "Operable", some "P2", []⟩]⟩

set_option maxRecDepth 10000 in
/-- C4: the outline's dotted numbers are the 1-based positions of the nodes
at each level — the extractor agrees everywhere with the spec-side
enumeration `extractSpec`, so numbering is strictly sequential, gap-free,
and the guideline and criterion counters restart at 1 inside each principle
and each guideline; and for the two-principle scenario the output has
exactly the two principle blocks with lines numbered 1.1.1 and 1.1.2. -/
theorem extractGuidelines_numbering :
    (∀ (psc : String → Option SCSection) (cd : CriteriaData) (doc : OutlineDoc),
      extractGuidelinesContent psc cd doc = extractSpec psc cd doc) ∧
    extractGuidelinesContent pscC4 cdC4 docC4 =
      "## Perceivable\n\nP1\n\n### Text Alternatives\n\nG1\n\n" ++
        "- [1.1.1 T1](wcag://criteria/non-text-content)\n" ++
        "- [1.1.2 T2](wcag://criteria/audio-only)\n\n" ++
        "## Operable\n\nP2\n\n" := by
  constructor
  · intro psc cd doc
    rw [extractGuidelinesContent, extractSpec, renderPrinciples_eq_enum]
  · decide

/-! ## Resource Façade (URI dispatch in `setupResourceHandlers`) -/

/-- A character matchable by `.` in a JS regex without the `s` flag: any
character except the four line terminators. -/
def jsDotOk (c : Char) : Bool :=
  !(c == '\n' || c == '\r' || c == '\u2028' || c == '\u2029')

/-- Drop a literal leading segment from a character list, or fail. -/
def dropPfx : List Char → List Char → Option (List Char)
  | [], l => some l
  | _ :: _, [] => none
  | a :: p, b :: l => if a = b then dropPfx p l else none

/-- `uri.match(/^wcag:\/\/criteria\/(.+)$/)`: everything after the literal
head, greedily — the capture accepts `/` — provided it is non-empty and has
no line terminators. -/
def criteriaCapture (uri : String) : Option String :=
  match dropPfx "wcag://criteria/".data uri.data with
  | some rest =>
      if !rest.isEmpty && rest.all jsDotOk then some (String.mk rest) else none
  | none => none

/-- `uri.match(/^wcag:\/\/understanding\/(.+)$/)`. -/
def understandingCapture (uri : String) : Option String :=
  match dropPfx "wcag://understanding/".data uri.data with
  | some rest =>
      if !rest.isEmpty && rest.all jsDotOk then some (String.mk rest) else none
  | none => none

/-- `uri.match(/^wcag:\/\/techniques\/([^/]+)$/)`: the capture refuses `/`
(the negated class does accept line terminators). -/
def techniqueCapture (uri : String) : Option String :=
  match dropPfx "wcag://techniques/".data uri.data with
  | some rest =>
      if !rest.isEmpty && rest.all (fun c => !(c == '/')) then
        some (String.mk rest)
      else none
  | none => none

/-- The `ReadResourceRequestSchema` handler: dispatch on the four address
shapes in source order, falling through to the invalid-URI rejection.
`po` is the black-box jsdom parse of the outline source file. -/
def handleResource (td : TurndownOptions → String → String)
    (po : String → OutlineDoc) (psc : String → Option SCSection)
    (cd : CriteriaData) (st : Store) (base uri : String) :
    Except McpError String :=
  if uri = "wcag://principles-guidelines" then
    .ok (extractGuidelinesContent psc cd
      (po (st.fsRead (base ++ "/guidelines/index.html"))))
  else
    match criteriaCapture uri with
    | some cid => (findCriterion st base cid).map (convertHtmlToMarkdown td)
    | none =>
      match understandingCapture uri with
      | some cid => (findUnderstanding st base cid).map (convertHtmlToMarkdown td)
      | none =>
        match techniqueCapture uri with
        | some tid => (findTechnique st base tid).map (convertHtmlToMarkdown td)
        | none => .error ⟨.InvalidRequest, "Invalid URI: " ++ uri⟩

lemma dropPfx_append : ∀ (p l : List Char), dropPfx p (p ++ l) = some l := by
  intro p
  induction p with
  | nil => intro l; rfl
  | cons a p ih => intro l; simp [dropPfx, ih]

lemma string_append_ne (p q id : String) (i : Nat) (hi : i < p.data.length)
    (hne : p.data[i]? ≠ q.data[i]?) : p ++ id ≠ q := by
  intro h
  have h2 : (p.data ++ id.data)[i]? = q.data[i]? := by
    rw [← String.data_append, h]
  rw [List.getElem?_append, if_pos hi] at h2
  exact hne h2

lemma criteriaCapture_append (id : String) (hne : id.data ≠ [])
    (hall : id.data.all jsDotOk = true) :
    criteriaCapture ("wcag://criteria/" ++ id) = some id := by
  have hie : id.data.isEmpty = false := by
    cases h : id.data with
    | nil => exact absurd h hne
    | cons c cs => rfl
  have hd : dropPfx "wcag://criteria/".data ("wcag://criteria/" ++ id).data =
      some id.data := by
    rw [String.data_append]
    exact dropPfx_append _ _
  unfold criteriaCapture
  rw [hd]
  simp [hie, hall]

lemma understandingCapture_append (id : String) (hne : id.data ≠ [])
    (hall : id.data.all jsDotOk = true) :
    understandingCapture ("wcag://understanding/" ++ id) = some id := by
  have hie : id.data.isEmpty = false := by
    cases h : id.data with
    | nil => exact absurd h hne
    | cons c cs => rfl
  have hd : dropPfx "wcag://understanding/".data
      ("wcag://understanding/" ++ id).data = some id.data := by
    rw [String.data_append]
    exact dropPfx_append _ _
  unfold understandingCapture
  rw [hd]
  simp [hie, hall]

lemma criteriaCapture_understanding_none (id : String) :
    criteriaCapture ("wcag://understanding/" ++ id) = none := by
  have hd : dropPfx "wcag://criteria/".data
      ("wcag://understanding/" ++ id).data = none := by
    rw [String.data_append]
    simp [dropPfx]
  unfold criteriaCapture
  rw [hd]

lemma criteriaCapture_techniques_none (id : String) :
    criteriaCapture ("wcag://techniques/" ++ id) = none := by
  have hd : dropPfx "wcag://criteria/".data
      ("wcag://techniques/" ++ id).data = none := by
    rw [String.data_append]
    simp [dropPfx]
  unfold criteriaCapture
  rw [hd]

lemma understandingCapture_techniques_none (id : String) :
    understandingCapture ("wcag://techniques/" ++ id) = none := by
  have hd : dropPfx "wcag://understanding/".data
      ("wcag://techniques/" ++ id).data = none := by
    rw [String.data_append]
    simp [dropPfx]
  unfold understandingCapture
  rw [hd]

lemma techniqueCapture_slash_none (id : String) (h : '/' ∈ id.data) :
    techniqueCapture ("wcag://techniques/" ++ id) = none := by
  have hall : id.data.all (fun c => !(c == '/')) = false := by
    rw [List.all_eq_false]
    exact ⟨'/', h, by decide⟩
  have hd : dropPfx "wcag://techniques/".data
      ("wcag://techniques/" ++ id).data = some id.data := by
    rw [String.data_append]
    exact dropPfx_append _ _
  unfold techniqueCapture
  rw [hd]
  simp [hall]

/-! ## `path.join` normalization (Node `path.posix`)

The probed file paths in the program are built with `path.join`, which
normalizes its result (resolving `.` and `..` segments and collapsing
repeated or trailing separators). `criterionPath`/`understandingPath` above
model only the pre-normalization template; that is exact for identifiers and
base paths whose segments are plain, and adequate for the store-quantified
resolution theorems. The definitions below model the normalization itself,
for statements about the probed path string. -/

/-- Join segments with a separator (inverse of `splitChar`). -/
def joinSegs (sep : Char) : List (List Char) → List Char
  | [] => []
  | [s] => s
  | s :: rest => s ++ sep :: joinSegs sep rest

/-- Node's `normalizeString` segment stack: empty and `.` segments are
dropped; `..` pops a normal segment, and is kept only for relative paths
(`allowAbove`) when there is nothing left to pop. -/
def normStack (allowAbove : Bool) :
    List (List Char) → List (List Char) → List (List Char)
  | acc, [] => acc.reverse
  | acc, s :: rest =>
      if s = [] ∨ s = ['.'] then normStack allowAbove acc rest
      else if s = ['.', '.'] then
        match acc with
        | [] =>
            if allowAbove then normStack allowAbove [['.', '.']] rest
            else normStack allowAbove [] rest
        | t :: acc2 =>
            if t = ['.', '.'] then
              (if allowAbove then normStack allowAbove (s :: acc) rest
               else normStack allowAbove acc rest)
            else normStack allowAbove acc2 rest
      else normStack allowAbove (s :: acc) rest

/-- Node `path.posix.normalize`. -/
def pathNormalize (p : String) : String :=
  if p = "" then "."
  else
    let isAbs := listStarts ['/'] p.data
    let trail := listStarts ['/'] p.data.reverse
    let core := joinSegs '/' (normStack (!isAbs) [] (splitChar '/' p.data))
    if core = [] then
      if isAbs then "/" else if trail then "./" else "."
    else
      String.mk ((if isAbs then ['/'] else []) ++ core ++
        (if trail then ['/'] else []))

/-- Node `path.posix.join` of two parts: concatenate the non-empty parts
with `/`, then normalize. -/
def pathJoin (a b : String) : String :=
  if a = "" then (if b = "" then "." else pathNormalize b)
  else if b = "" then pathNormalize a
  else pathNormalize (a ++ "/" ++ b)

/-- The criterion path the program actually probes:
`path.join(wcagBasePath, 'guidelines/sc/<v>/<id>.html')` with
normalization. -/
def criterionPathJoined (base v id : String) : String :=
  pathJoin base ("guidelines/sc/" ++ v ++ "/" ++ id ++ ".html")

/-- The understanding path the program actually probes. -/
def understandingPathJoined (base v id : String) : String :=
  pathJoin base ("understanding/" ++ v ++ "/" ++ id ++ ".html")

/-- A path segment that normalization passes through unchanged: non-empty
and neither `.` nor `..`. -/
def plainSeg (s : List Char) : Bool :=
  if s = [] ∨ s = ['.'] ∨ s = ['.', '.'] then false else true

/-- All `/`-segments of the string are plain (this also rules out leading,
trailing, and repeated separators). -/
def plainSegs (s : String) : Bool := (splitChar '/' s.data).all plainSeg

lemma splitChar_append_sep (sep : Char) (ys : List Char) :
    ∀ xs : List Char,
      splitChar sep (xs ++ sep :: ys) = splitChar sep xs ++ splitChar sep ys := by
  intro xs
  induction xs with
  | nil => simp [splitChar]
  | cons c cs ih =>
      by_cases hc : c = sep
      · subst hc
        simp [splitChar, ih]
      · cases hsc : splitChar sep cs with
        | nil => exact absurd hsc (splitChar_ne_nil sep cs)
        | cons h t => simp [splitChar, hc, ih, hsc]

lemma mem_getLastD {α : Type} :
    ∀ (l : List α) (d : α), l ≠ [] → l.getLastD d ∈ l := by
  intro l
  induction l with
  | nil => intro d h; exact absurd rfl h
  | cons x t ih =>
      intro d _
      rw [List.getLastD_cons]
      cases ht : t with
      | nil => subst ht; simp [List.getLastD]
      | cons y u =>
          subst ht
          exact List.mem_cons_of_mem x (ih x (by simp))

lemma normStack_plain :
    ∀ segs : List (List Char), segs.all plainSeg = true →
      ∀ acc : List (List Char), normStack true acc segs = acc.reverse ++ segs := by
  intro segs
  induction segs with
  | nil => intro _ acc; simp [normStack]
  | cons s rest ih =>
      intro hall acc
      rw [List.all_cons, Bool.and_eq_true] at hall
      obtain ⟨hs, hrest⟩ := hall
      have hA : ¬(s = [] ∨ s = ['.'] ∨ s = ['.', '.']) := by
        intro h0
        rw [plainSeg, if_pos h0] at hs
        exact Bool.false_ne_true hs
      push_neg at hA
      obtain ⟨h1, h2, h3⟩ := hA
      have hc1 : ¬(s = [] ∨ s = ['.']) := by
        rintro (h | h)
        exacts [h1 h, h2 h]
      simp only [normStack, if_neg hc1, if_neg h3]
      rw [ih hrest (s :: acc)]
      simp

lemma joinSegs_splitChar (sep : Char) :
    ∀ l : List Char, joinSegs sep (splitChar sep l) = l := by
  intro l
  induction l with
  | nil => rfl
  | cons c cs ih =>
      by_cases hc : c = sep
      · subst hc
        cases hsc : splitChar c cs with
        | nil => exact absurd hsc (splitChar_ne_nil c cs)
        | cons h t =>
            rw [hsc] at ih
            have h1 : splitChar c (c :: cs) = [] :: h :: t := by
              simp [splitChar, hsc]
            rw [h1]
            simp [joinSegs, ih]
      · cases hsc : splitChar sep cs with
        | nil => exact absurd hsc (splitChar_ne_nil sep cs)
        | cons h t =>
            rw [hsc] at ih
            have h1 : splitChar sep (c :: cs) = (c :: h) :: t := by
              simp [splitChar, hc, hsc]
            rw [h1]
            cases t with
            | nil =>
                simp [joinSegs] at ih ⊢
                simp [ih]
            | cons y u =>
                simp [joinSegs] at ih ⊢
                rw [← ih]

lemma plainSegs_ne_empty (p : String) (hp : plainSegs p = true) : p ≠ "" := by
  intro h
  subst h
  rw [plainSegs] at hp
  simp [splitChar, plainSeg] at hp

lemma plainSegs_not_isAbs (p : String) (hp : plainSegs p = true) :
    listStarts ['/'] p.data = false := by
  cases hd : p.data with
  | nil => rfl
  | cons c t =>
      by_cases hc : c = '/'
      · subst hc
        rw [plainSegs, hd] at hp
        simp [splitChar, plainSeg] at hp
      · have h2 : ¬('/' = c) := fun h => hc h.symm
        simp [listStarts, h2]

lemma plainSegs_not_trail (p : String) (hp : plainSegs p = true) :
    listStarts ['/'] p.data.reverse = false := by
  cases hd : p.data.reverse with
  | nil => rfl
  | cons c t =>
      by_cases hc : c = '/'
      · subst hc
        have hpd : p.data = t.reverse ++ '/' :: [] := by
          have h0 := congrArg List.reverse hd
          rw [List.reverse_reverse] at h0
          rw [h0, List.reverse_cons]
        have hlast : (splitChar '/' p.data).getLastD [] = [] := by
          rw [hpd, splitChar_getLastD_append]
          rfl
        have hmem : ([] : List Char) ∈ splitChar '/' p.data := by
          rw [← hlast]
          exact mem_getLastD _ _ (splitChar_ne_nil _ _)
        rw [plainSegs, List.all_eq_true] at hp
        have h3 := hp [] hmem
        simp [plainSeg] at h3
      · have h2 : ¬('/' = c) := fun h => hc h.symm
        simp [listStarts, h2]

lemma pathNormalize_plain (p : String) (hp : plainSegs p = true) :
    pathNormalize p = p := by
  have hne : p ≠ "" := plainSegs_ne_empty p hp
  have hdne : p.data ≠ [] := by
    intro h0
    exact hne (String.ext h0)
  have hia := plainSegs_not_isAbs p hp
  have hit := plainSegs_not_trail p hp
  have hp2 : (splitChar '/' p.data).all plainSeg = true := hp
  simp only [pathNormalize, if_neg hne, hia, hit, Bool.not_false]
  rw [normStack_plain _ hp2 []]
  simp only [List.reverse_nil, List.nil_append]
  rw [joinSegs_splitChar]
  rw [if_neg hdne]
  simp

lemma plainSegs_append (a b : String) (ha : plainSegs a = true)
    (hb : plainSegs b = true) : plainSegs (a ++ "/" ++ b) = true := by
  have hd : (a ++ "/" ++ b).data = a.data ++ '/' :: b.data := by
    rw [String.data_append, String.data_append]
    simp
  rw [plainSegs, hd, splitChar_append_sep, List.all_append]
  rw [plainSegs] at ha hb
  rw [ha, hb]
  rfl

lemma pathJoin_plain (a b : String) (ha : plainSegs a = true)
    (hb : plainSegs b = true) : pathJoin a b = a ++ "/" ++ b := by
  rw [pathJoin, if_neg (plainSegs_ne_empty a ha),
    if_neg (plainSegs_ne_empty b hb)]
  exact pathNormalize_plain _ (plainSegs_append a b ha hb)

set_option maxRecDepth 10000 in
/-- Counterexample to C10 as stated: the identifier "../x" is in scope (the
criterion address shape captures it — it contains `/` and no line
terminators), but the program's probed path, built by `path.join`, is the
normalized `B/guidelines/sc/x.html` for every version: the identifier is
not spliced verbatim into the probed path, and the probed path is the same
for all three versions rather than lying under each version directory. -/
theorem uri_slash_path_normalization_cex :
    criteriaCapture ("wcag://criteria/" ++ "../x") = some "../x" ∧
    criterionPathJoined "B" "20" "../x" = "B/guidelines/sc/x.html" ∧
    criterionPathJoined "B" "21" "../x" = "B/guidelines/sc/x.html" ∧
    criterionPathJoined "B" "22" "../x" = "B/guidelines/sc/x.html" ∧
    containsSeg "../x".data "B/guidelines/sc/x.html".data = false := by
  refine ⟨by decide, by decide, by decide, by decide, by decide⟩

/-- C10 (amended): at the address interface, the criterion and
understanding shapes capture greedily and accept identifiers containing
`/`, which then reach version fan-out resolution unchanged; the technique
shape rejects any identifier containing `/`, and such a request falls
through to the invalid-URI rejection rather than reaching technique
resolution. The identifier is spliced verbatim into the
`guidelines/sc/<version>/<id>.html` template handed to `path.join`, and —
for base paths and identifiers all of whose `/`-segments are plain (no
empty, `.`, or `..` segments) — verbatim into every probed file path under
each version directory; for other identifiers `path.join` normalizes the
probed path (see the counterexample at "../x"). -/
theorem uri_capture_slash_asymmetry :
    (∀ id : String, '/' ∈ id.data → id.data.all jsDotOk = true →
      criteriaCapture ("wcag://criteria/" ++ id) = some id ∧
      understandingCapture ("wcag://understanding/" ++ id) = some id ∧
      (∀ (td : TurndownOptions → String → String) (po : String → OutlineDoc)
          (psc : String → Option SCSection) (cd : CriteriaData) (st : Store)
          (base : String),
        handleResource td po psc cd st base ("wcag://criteria/" ++ id) =
          (findCriterion st base id).map (convertHtmlToMarkdown td) ∧
        handleResource td po psc cd st base ("wcag://understanding/" ++ id) =
          (findUnderstanding st base id).map (convertHtmlToMarkdown td)) ∧
      (∀ base v : String, v ∈ versions → plainSegs base = true →
        plainSegs (id ++ ".html") = true →
        criterionPathJoined base v id =
          base ++ "/guidelines/sc/" ++ v ++ "/" ++ id ++ ".html" ∧
        understandingPathJoined base v id =
          base ++ "/understanding/" ++ v ++ "/" ++ id ++ ".html")) ∧
    (∀ id : String, '/' ∈ id.data →
      techniqueCapture ("wcag://techniques/" ++ id) = none ∧
      ∀ (td : TurndownOptions → String → String) (po : String → OutlineDoc)
          (psc : String → Option SCSection) (cd : CriteriaData) (st : Store)
          (base : String),
        handleResource td po psc cd st base ("wcag://techniques/" ++ id) =
          .error ⟨.InvalidRequest, "Invalid URI: " ++ ("wcag://techniques/" ++ id)⟩) := by
  constructor
  · intro id h1 h2
    have hne : id.data ≠ [] := List.ne_nil_of_mem h1
    have hc := criteriaCapture_append id hne h2
    have hu := understandingCapture_append id hne h2
    refine ⟨hc, hu, ?_, ?_⟩
    · intro td po psc cd st base
      constructor
      · have hne1 : ("wcag://criteria/" ++ id) ≠ "wcag://principles-guidelines" :=
          string_append_ne _ _ id 7 (by decide) (by decide)
        simp [handleResource, hne1, hc]
      · have hne2 : ("wcag://understanding/" ++ id) ≠ "wcag://principles-guidelines" :=
          string_append_ne _ _ id 7 (by decide) (by decide)
        simp [handleResource, hne2, criteriaCapture_understanding_none, hu]
    · intro base v hv hbase hid2
      have hvp : plainSegs v = true := by
        fin_cases hv <;> decide
      constructor
      · have hre : ("guidelines/sc/" ++ v ++ "/" ++ id ++ ".html" : String) =
            ("guidelines/sc" ++ "/" ++ v) ++ "/" ++ (id ++ ".html") := by
          apply String.ext
          simp [String.data_append, List.append_assoc]
        have hT : plainSegs ("guidelines/sc/" ++ v ++ "/" ++ id ++ ".html") =
            true := by
          rw [hre]
          exact plainSegs_append _ _
            (plainSegs_append "guidelines/sc" v (by decide) hvp) hid2
        rw [criterionPathJoined, pathJoin_plain base _ hbase hT]
        apply String.ext
        simp [String.data_append, List.append_assoc]
      · have hre : ("understanding/" ++ v ++ "/" ++ id ++ ".html" : String) =
            ("understanding" ++ "/" ++ v) ++ "/" ++ (id ++ ".html") := by
          apply String.ext
          simp [String.data_append, List.append_assoc]
        have hT : plainSegs ("understanding/" ++ v ++ "/" ++ id ++ ".html") =
            true := by
          rw [hre]
          exact plainSegs_append _ _
            (plainSegs_append "understanding" v (by decide) hvp) hid2
        rw [understandingPathJoined, pathJoin_plain base _ hbase hT]
        apply String.ext
        simp [String.data_append, List.append_assoc]
  · intro id h1
    have ht := techniqueCapture_slash_none id h1
    refine ⟨ht, ?_⟩
    intro td po psc cd st base
    have hne3 : ("wcag://techniques/" ++ id) ≠ "wcag://principles-guidelines" :=
      string_append_ne _ _ id 7 (by decide) (by decide)
    simp [handleResource, hne3, criteriaCapture_techniques_none,
      understandingCapture_techniques_none, ht]

set_option maxRecDepth 10000 in
/-- Witness for C10 (amended) at the identifier "a/b": captured by the
criterion shape, rejected by the technique shape, and — its segments being
plain — spliced verbatim into the probed version-20 path. -/
theorem uri_capture_slash_asymmetry_witness :
    criteriaCapture ("wcag://criteria/" ++ "a/b") = some "a/b" ∧
    techniqueCapture ("wcag://techniques/" ++ "a/b") = none ∧
    criterionPathJoined "B" "20" "a/b" =
      "B" ++ "/guidelines/sc/" ++ "20" ++ "/" ++ "a/b" ++ ".html" := by
  have h1 := uri_capture_slash_asymmetry.1 "a/b" (by decide) (by decide)
  have h2 := uri_capture_slash_asymmetry.2 "a/b" (by decide)
  exact ⟨h1.1, h2.1,
    (h1.2.2.2 "B" "20" (by decide) (by decide) (by decide)).1⟩
